import Mathlib

set_option linter.unusedVariables false

/-!
Shallow embedding of the zone-segmentation engine of
`dirac_caspt2_input_generator` (files `src/main.py` and `src/color_info.py`).

The embedding covers:
* `setIndices` — `ColorInfo.setIndices` (color_info.py, lines 14-18);
* `scanRow`, `scanFrom`, `resolveDefaults`, `onTableWidgetColorChanged` —
  `WidgetController.onTableWidgetColorChanged` (main.py, lines 352-387);
* `show_context_menu` — the action-narrowing logic of
  `TableWidget.show_context_menu` (main.py, lines 96-120);
* `change_selected_rows_background_color`, `change_background_color` —
  the recolor operations (main.py, lines 122-131);
* `load_output_rowColor`, `load_output_setIndices` — the initial painting and
  the `setIndices` call of `TableWidget.load_output` (main.py, lines 58-94).

Row indices and boundary values are carried in `ℤ`, matching the Python
integers and the `-1` sentinel.  The per-zone counters are carried in `ℕ`:
they start at `0` and only ever grow by `2`, so the Python value is always a
nonnegative integer and Python's floor division `// 2` agrees with `ℕ`
division.
-/

/-- The four row-classification zones, in the fixed display order
`core`, `inactive`, `active`, `secondary`. -/
inductive Zone where
  | core
  | inactive
  | active
  | secondary
  deriving DecidableEq, Repr

/-- A cell background color as compared by the engine: one of the four zone
colors (`colors.core`, `colors.inactive`, `colors.active`,
`colors.secondary`), or any other color value (`other`), which matches none
of the four comparisons of the `if/elif` chain. -/
inductive Color where
  | core
  | inactive
  | active
  | secondary
  | other
  deriving DecidableEq, Repr

/-- The zone color of a zone (the value `colors.<zone>` of config). -/
def zoneColor : Zone → Color
  | Zone.core => Color.core
  | Zone.inactive => Color.inactive
  | Zone.active => Color.active
  | Zone.secondary => Color.secondary

/-- The mutable local state of `onTableWidgetColorChanged`'s scan loop:
the dicts `color_count` (one `ℕ` per zone) and `idx_start`
(one `ℤ` per zone, `-1` meaning "not seen yet"). -/
structure ScanState where
  countCore : ℕ
  countInactive : ℕ
  countActive : ℕ
  countSecondary : ℕ
  idxCore : ℤ
  idxInactive : ℤ
  idxActive : ℤ
  idxSecondary : ℤ
  deriving DecidableEq, Repr

/-- `color_count = {"core": 0, ...}`, `idx_start = {"core": -1, ...}`
(main.py, lines 353-354). -/
def initState : ScanState :=
  { countCore := 0, countInactive := 0, countActive := 0, countSecondary := 0,
    idxCore := -1, idxInactive := -1, idxActive := -1, idxSecondary := -1 }

/-- The dict lookup `color_count[zone]`. -/
def ScanState.countOf (st : ScanState) : Zone → ℕ
  | Zone.core => st.countCore
  | Zone.inactive => st.countInactive
  | Zone.active => st.countActive
  | Zone.secondary => st.countSecondary

/-- The dict lookup `idx_start[zone]`. -/
def ScanState.idxOf (st : ScanState) : Zone → ℤ
  | Zone.core => st.idxCore
  | Zone.inactive => st.idxInactive
  | Zone.active => st.idxActive
  | Zone.secondary => st.idxSecondary

/-- One iteration of the scan loop of `onTableWidgetColorChanged`
(main.py, lines 355-372) on the row with index `row` whose column-0
background is `c`.  An unrecognized color falls through the whole
`if/elif` chain and leaves the state unchanged. -/
def scanRow (st : ScanState) (row : ℕ) (c : Color) : ScanState :=
  if c = Color.core then
    { st with
      idxCore := if st.idxCore = -1 then (row : ℤ) else st.idxCore,
      countCore := st.countCore + 2 }
  else if c = Color.inactive then
    { st with
      idxInactive := if st.idxInactive = -1 then (row : ℤ) else st.idxInactive,
      countInactive := st.countInactive + 2 }
  else if c = Color.active then
    { st with
      idxActive := if st.idxActive = -1 then (row : ℤ) else st.idxActive,
      countActive := st.countActive + 2 }
  else if c = Color.secondary then
    { st with
      idxSecondary := if st.idxSecondary = -1 then (row : ℤ) else st.idxSecondary,
      countSecondary := st.countSecondary + 2 }
  else
    st

/-- The scan loop `for row in range(self.table_widget.rowCount())`,
started at row index `i` in state `st`, over the remaining rows' column-0
colors. -/
def scanFrom (st : ScanState) (i : ℕ) : List Color → ScanState
  | [] => st
  | c :: cs => scanFrom (scanRow st i c) (i + 1) cs

/-- The full scan of `onTableWidgetColorChanged` over the table's column-0
colors, row 0 first. -/
def scanRows (rows : List Color) : ScanState :=
  scanFrom initState 0 rows

/-- The sentinel-resolution block of `onTableWidgetColorChanged`
(main.py, lines 374-381).  The four `if idx_start[...] == -1:` statements
read only `color_count` values and each writes a distinct `idx_start` key, so
the sequential updates of the source equal this simultaneous record update. -/
def resolveDefaults (st : ScanState) : ScanState :=
  { st with
    idxCore := if st.idxCore = -1 then 0 else st.idxCore,
    idxInactive :=
      if st.idxInactive = -1 then ((st.countCore / 2 : ℕ) : ℤ) else st.idxInactive,
    idxActive :=
      if st.idxActive = -1 then
        (((st.countCore + st.countInactive) / 2 : ℕ) : ℤ)
      else st.idxActive,
    idxSecondary :=
      if st.idxSecondary = -1 then
        (((st.countCore + st.countInactive + st.countActive) / 2 : ℕ) : ℤ)
      else st.idxSecondary }

/-- The stored boundary table `ColorInfo.index_info`: one inclusive
`(firstRow, lastRow)` pair per zone. -/
structure IndexInfo where
  core : ℤ × ℤ
  inactive : ℤ × ℤ
  active : ℤ × ℤ
  secondary : ℤ × ℤ
  deriving DecidableEq, Repr

/-- `ColorInfo.setIndices` (color_info.py, lines 14-18): compute all four
boundary pairs from the three split points and the total length. -/
def setIndices (inactive_start active_start secondary_start length : ℤ) : IndexInfo :=
  { core := (0, inactive_start - 1),
    inactive := (inactive_start, active_start - 1),
    active := (active_start, secondary_start - 1),
    secondary := (secondary_start, length - 1) }

/-- The dict lookup `index_info[zone]`. -/
def IndexInfo.pairOf (info : IndexInfo) : Zone → ℤ × ℤ
  | Zone.core => info.core
  | Zone.inactive => info.inactive
  | Zone.active => info.active
  | Zone.secondary => info.secondary

/-- The observable outcome of one run of `onTableWidgetColorChanged`:
the boundary table stored by the `setIndices` call (main.py, line 383) and
the four numbers written into the labels (main.py, lines 384-387).  The
labels receive the `color_count` values unchanged. -/
structure ReconcileResult where
  info : IndexInfo
  countCore : ℕ
  countInactive : ℕ
  countActive : ℕ
  countSecondary : ℕ
  deriving DecidableEq, Repr

/-- The label number `color_count[zone]` of the result. -/
def ReconcileResult.countOf (r : ReconcileResult) : Zone → ℕ
  | Zone.core => r.countCore
  | Zone.inactive => r.countInactive
  | Zone.active => r.countActive
  | Zone.secondary => r.countSecondary

/-- `WidgetController.onTableWidgetColorChanged` (main.py, lines 352-387),
as a function of the column-0 background colors of the table's rows.
`rows.length` plays `self.table_widget.rowCount()`. -/
def onTableWidgetColorChanged (rows : List Color) : ReconcileResult :=
  let st := resolveDefaults (scanRows rows)
  { info := setIndices st.idxInactive st.idxActive st.idxSecondary (rows.length : ℤ),
    countCore := st.countCore,
    countInactive := st.countInactive,
    countActive := st.countActive,
    countSecondary := st.countSecondary }


/-- The relative position of a zone in the fixed zone order. -/
def Zone.rank : Zone → ℕ
  | Zone.core => 0
  | Zone.inactive => 1
  | Zone.active => 2
  | Zone.secondary => 3

/-- A per-row zone assignment whose zones appear in non-decreasing zone
order (each zone's rows form one contiguous block, blocks in display
order). -/
def ZoneMonotone (l : List Zone) : Prop :=
  l.Pairwise (fun x y => x.rank ≤ y.rank)

instance (l : List Zone) : Decidable (ZoneMonotone l) := by
  unfold ZoneMonotone
  infer_instance

/-- The column-0 colors of a table whose zones form contiguous blocks of
sizes `a`, `b`, `c`, `d` in display order. -/
def rowsBlocks (a b c d : ℕ) : List Color :=
  List.replicate a (zoneColor Zone.core) ++
    (List.replicate b (zoneColor Zone.inactive) ++
      (List.replicate c (zoneColor Zone.active) ++
        List.replicate d (zoneColor Zone.secondary)))

/-- The action-narrowing logic of `TableWidget.show_context_menu`
(main.py, lines 103-119): the list of "recolor selection to zone" actions
added to the menu, in source order, for the selected row set
`selected_rows` and the stored boundaries `info`. -/
def show_context_menu (selected_rows : Finset ℤ) (info : IndexInfo) : List Zone :=
  (if info.inactive.1 ∈ selected_rows then [Zone.core] else []) ++
    ((if info.core.2 ∈ selected_rows ∨ info.active.1 ∈ selected_rows then
        [Zone.inactive] else []) ++
      ((if info.inactive.2 ∈ selected_rows ∨ info.secondary.1 ∈ selected_rows then
          [Zone.active] else []) ++
        (if info.active.2 ∈ selected_rows then [Zone.secondary] else [])))

/-- The per-zone trigger rule as the specification states it: `core` iff the
selection contains `inactive.first`; `inactive` iff it contains `core.last`
or `active.first`; `active` iff it contains `inactive.last` or
`secondary.first`; `secondary` iff it contains `active.last`. -/
def adviseTrigger (selected_rows : Finset ℤ) (info : IndexInfo) : Zone → Bool
  | Zone.core => decide (info.inactive.1 ∈ selected_rows)
  | Zone.inactive =>
      decide (info.core.2 ∈ selected_rows) || decide (info.active.1 ∈ selected_rows)
  | Zone.active =>
      decide (info.inactive.2 ∈ selected_rows) || decide (info.secondary.1 ∈ selected_rows)
  | Zone.secondary => decide (info.active.2 ∈ selected_rows)

/-- The displayed grid: `rowCount`, `columnCount` and the background color of
each cell (`self.item(row, column).background()`). -/
structure Table where
  nrows : ℕ
  ncols : ℕ
  cell : ℕ → ℕ → Color

/-- `TableWidget.change_selected_rows_background_color` (main.py,
lines 122-124): set the background of every column of row `row` to
`color`. -/
def change_selected_rows_background_color (t : Table) (row : ℕ) (color : Color) : Table :=
  { t with cell := fun r c => if r = row ∧ c < t.ncols then color else t.cell r c }

/-- `TableWidget.change_background_color` (main.py, lines 126-131): recolor
every selected row, iterating in some order over the set of selected row
indices. -/
def change_background_color (t : Table) (rows : List ℕ) (color : Color) : Table :=
  rows.foldl (fun acc row => change_selected_rows_background_color acc row color) t

/-- All cells of any one row share a single color. -/
def UniformRows (t : Table) : Prop :=
  ∀ r c₁ c₂, c₁ < t.ncols → c₂ < t.ncols → t.cell r c₁ = t.cell r c₂

/-- The initial positional painting of `TableWidget.load_output`
(main.py, lines 77-84): first 10 rows core, next 10 inactive, next 10
active, remainder secondary. -/
def load_output_rowColor (row : ℕ) : Color :=
  if row < 10 then Color.core
  else if row < 20 then Color.inactive
  else if row < 30 then Color.active
  else Color.secondary

/-- The `color_info.setIndices(10, 20, 30, len_column)` call of
`TableWidget.load_output` (main.py, line 86).  The source passes
`len_column` — the number of columns — as the `length` argument; `len_row`
is in scope but unused by this call. -/
def load_output_setIndices (len_row len_column : ℕ) : IndexInfo :=
  setIndices 10 20 30 (len_column : ℤ)

/-! ### Basic facts about the scan loop -/

theorem zoneColor_inj (z w : Zone) : zoneColor z = zoneColor w ↔ z = w := by
  cases z <;> cases w <;> simp [zoneColor]

theorem scanRow_countOf (st : ScanState) (i : ℕ) (c : Color) (z : Zone) :
    (scanRow st i c).countOf z =
      if c = zoneColor z then st.countOf z + 2 else st.countOf z := by
  cases c <;> cases z <;> simp [scanRow, ScanState.countOf, zoneColor]

theorem scanRow_idxOf (st : ScanState) (i : ℕ) (c : Color) (z : Zone) :
    (scanRow st i c).idxOf z =
      if c = zoneColor z ∧ st.idxOf z = -1 then (i : ℤ) else st.idxOf z := by
  cases c <;> cases z <;> simp [scanRow, ScanState.idxOf, zoneColor]

theorem scanFrom_countOf (z : Zone) :
    ∀ (rows : List Color) (i : ℕ) (st : ScanState),
      (scanFrom st i rows).countOf z = st.countOf z + 2 * rows.count (zoneColor z)
  | [], i, st => by simp [scanFrom]
  | c :: cs, i, st => by
      rw [scanFrom, scanFrom_countOf z cs (i + 1) (scanRow st i c), scanRow_countOf,
        List.count_cons]
      rcases eq_or_ne c (zoneColor z) with h | h <;> simp [h] <;> omega

theorem scanFrom_idxOf_frozen (z : Zone) :
    ∀ (rows : List Color) (i : ℕ) (st : ScanState), st.idxOf z ≠ -1 →
      (scanFrom st i rows).idxOf z = st.idxOf z
  | [], i, st, h => rfl
  | c :: cs, i, st, h => by
      have hstep : (scanRow st i c).idxOf z = st.idxOf z := by
        rw [scanRow_idxOf]
        simp [h]
      rw [scanFrom,
        scanFrom_idxOf_frozen z cs (i + 1) (scanRow st i c) (by rw [hstep]; exact h),
        hstep]

theorem scanFrom_idxOf_spec (z : Zone) :
    ∀ (rows : List Color) (i : ℕ) (st : ScanState), st.idxOf z = -1 →
      ((scanFrom st i rows).idxOf z = -1 ∧ zoneColor z ∉ rows) ∨
      (∃ j : ℕ, (scanFrom st i rows).idxOf z = ((i + j : ℕ) : ℤ) ∧
        rows.get? j = some (zoneColor z) ∧
        ∀ k, k < j → rows.get? k ≠ some (zoneColor z))
  | [], i, st, h => Or.inl (by simp [scanFrom, h])
  | c :: cs, i, st, h => by
      by_cases hc : c = zoneColor z
      · right
        have hstep : (scanRow st i c).idxOf z = (i : ℤ) := by
          rw [scanRow_idxOf]
          simp [hc, h]
        refine ⟨0, ?_, by simp [hc], by intro k hk; omega⟩
        rw [scanFrom,
          scanFrom_idxOf_frozen z cs (i + 1) (scanRow st i c) (by rw [hstep]; omega),
          hstep]
        simp
      · have hstep : (scanRow st i c).idxOf z = st.idxOf z := by
          rw [scanRow_idxOf]
          simp [hc]
        rw [scanFrom]
        rcases scanFrom_idxOf_spec z cs (i + 1) (scanRow st i c) (hstep.trans h) with
          ⟨h1, h2⟩ | ⟨j, h1, h2, h3⟩
        · left
          refine ⟨h1, ?_⟩
          simp only [List.mem_cons, not_or]
          exact ⟨fun hh => hc hh.symm, h2⟩
        · right
          refine ⟨j + 1, ?_, by simpa using h2, ?_⟩
          · rw [h1]
            congr 1
            omega
          · intro k hk
            cases k with
            | zero =>
                intro hh
                rw [List.get?_cons_zero] at hh
                exact hc (Option.some.inj hh)
            | succ k' => simpa using h3 k' (by omega)

theorem scanFrom_append (l1 l2 : List Color) :
    ∀ (i : ℕ) (st : ScanState),
      scanFrom st i (l1 ++ l2) = scanFrom (scanFrom st i l1) (i + l1.length) l2 := by
  induction l1 with
  | nil => intro i st; simp [scanFrom]
  | cons c cs ih =>
      intro i st
      rw [List.cons_append, scanFrom, scanFrom, ih]
      congr 1
      simp
      omega

/-! ### Scanning a coloring whose zones form contiguous blocks -/

theorem scanFrom_replicate_countOf (z w : Zone) (n i : ℕ) (st : ScanState) :
    (scanFrom st i (List.replicate n (zoneColor z))).countOf w =
      if w = z then st.countOf w + 2 * n else st.countOf w := by
  rw [scanFrom_countOf, List.count_replicate]
  rcases eq_or_ne w z with h | h
  · subst h
    simp
  · have h' : ¬ zoneColor w = zoneColor z := fun hh => h ((zoneColor_inj w z).mp hh)
    simp [h, h']
    exact fun hh => absurd hh.symm h'

theorem scanFrom_replicate_idxOf (z w : Zone) :
    ∀ (n i : ℕ) (st : ScanState),
      (scanFrom st i (List.replicate n (zoneColor z))).idxOf w =
        if w = z ∧ st.idxOf w = -1 ∧ 0 < n then (i : ℤ) else st.idxOf w
  | 0, i, st => by simp [scanFrom]
  | Nat.succ m, i, st => by
      rw [List.replicate_succ, scanFrom,
        scanFrom_replicate_idxOf z w m (i + 1) (scanRow st i (zoneColor z)),
        scanRow_idxOf]
      rcases eq_or_ne w z with hw | hw
      · subst hw
        rcases eq_or_ne (st.idxOf w) (-1) with hidx | hidx
        · have hne : ((i : ℤ)) ≠ -1 := by omega
          simp [hidx, hne]
        · simp [hidx]
      · have h' : ¬ zoneColor z = zoneColor w := fun hh => hw ((zoneColor_inj z w).mp hh).symm
        simp [hw, h']

/-- A zone-monotone coloring is four contiguous blocks in display order. -/
theorem zoneMonotone_eq_replicates :
    ∀ (l : List Zone), ZoneMonotone l →
      l = List.replicate (l.count Zone.core) Zone.core ++
          (List.replicate (l.count Zone.inactive) Zone.inactive ++
            (List.replicate (l.count Zone.active) Zone.active ++
              List.replicate (l.count Zone.secondary) Zone.secondary))
  | [], _ => by simp
  | z :: xs, h => by
      have hhead : ∀ y ∈ xs, z.rank ≤ y.rank := (List.pairwise_cons.mp h).1
      have htail : ZoneMonotone xs := (List.pairwise_cons.mp h).2
      have ih := zoneMonotone_eq_replicates xs htail
      have hnotmem : ∀ w : Zone, w.rank < z.rank → w ∉ xs := by
        intro w hw hmem
        exact absurd (hhead w hmem) (by omega)
      cases z with
      | core =>
          simp only [List.count_cons_self, List.count_cons_of_ne (by decide : Zone.inactive ≠ Zone.core),
            List.count_cons_of_ne (by decide : Zone.active ≠ Zone.core),
            List.count_cons_of_ne (by decide : Zone.secondary ≠ Zone.core),
            List.replicate_succ, List.cons_append]
          exact congrArg (Zone.core :: ·) ih
      | inactive =>
          have h0 : xs.count Zone.core = 0 :=
            List.count_eq_zero.mpr (hnotmem Zone.core (by simp [Zone.rank]))
          rw [h0, List.replicate_zero, List.nil_append] at ih
          simp only [List.count_cons_self, List.count_cons_of_ne (by decide : Zone.core ≠ Zone.inactive),
            List.count_cons_of_ne (by decide : Zone.active ≠ Zone.inactive),
            List.count_cons_of_ne (by decide : Zone.secondary ≠ Zone.inactive),
            h0, List.replicate_zero, List.replicate_succ, List.nil_append, List.cons_append]
          exact congrArg (Zone.inactive :: ·) ih
      | active =>
          have h0 : xs.count Zone.core = 0 :=
            List.count_eq_zero.mpr (hnotmem Zone.core (by simp [Zone.rank]))
          have h1 : xs.count Zone.inactive = 0 :=
            List.count_eq_zero.mpr (hnotmem Zone.inactive (by simp [Zone.rank]))
          rw [h0, h1, List.replicate_zero, List.replicate_zero, List.nil_append,
            List.nil_append] at ih
          simp only [List.count_cons_self, List.count_cons_of_ne (by decide : Zone.core ≠ Zone.active),
            List.count_cons_of_ne (by decide : Zone.inactive ≠ Zone.active),
            List.count_cons_of_ne (by decide : Zone.secondary ≠ Zone.active),
            h0, h1, List.replicate_zero, List.replicate_succ, List.nil_append, List.cons_append]
          exact congrArg (Zone.active :: ·) ih
      | secondary =>
          have h0 : xs.count Zone.core = 0 :=
            List.count_eq_zero.mpr (hnotmem Zone.core (by simp [Zone.rank]))
          have h1 : xs.count Zone.inactive = 0 :=
            List.count_eq_zero.mpr (hnotmem Zone.inactive (by simp [Zone.rank]))
          have h2 : xs.count Zone.active = 0 :=
            List.count_eq_zero.mpr (hnotmem Zone.active (by simp [Zone.rank]))
          rw [h0, h1, h2, List.replicate_zero, List.replicate_zero, List.replicate_zero,
            List.nil_append, List.nil_append, List.nil_append] at ih
          simp only [List.count_cons_self, List.count_cons_of_ne (by decide : Zone.core ≠ Zone.secondary),
            List.count_cons_of_ne (by decide : Zone.inactive ≠ Zone.secondary),
            List.count_cons_of_ne (by decide : Zone.active ≠ Zone.secondary),
            h0, h1, h2, List.replicate_zero, List.replicate_succ, List.nil_append, List.cons_append]
          exact congrArg (Zone.secondary :: ·) ih

theorem countCore_eq (st : ScanState) : st.countCore = st.countOf Zone.core := rfl

theorem countInactive_eq (st : ScanState) : st.countInactive = st.countOf Zone.inactive := rfl

theorem countActive_eq (st : ScanState) : st.countActive = st.countOf Zone.active := rfl

theorem countSecondary_eq (st : ScanState) : st.countSecondary = st.countOf Zone.secondary := rfl

theorem idxCore_eq (st : ScanState) : st.idxCore = st.idxOf Zone.core := rfl

theorem idxInactive_eq (st : ScanState) : st.idxInactive = st.idxOf Zone.inactive := rfl

theorem idxActive_eq (st : ScanState) : st.idxActive = st.idxOf Zone.active := rfl

theorem idxSecondary_eq (st : ScanState) : st.idxSecondary = st.idxOf Zone.secondary := rfl

theorem scanRows_rowsBlocks (a b c d : ℕ) :
    (scanRows (rowsBlocks a b c d)).countOf Zone.core = 2 * a ∧
    (scanRows (rowsBlocks a b c d)).countOf Zone.inactive = 2 * b ∧
    (scanRows (rowsBlocks a b c d)).countOf Zone.active = 2 * c ∧
    (scanRows (rowsBlocks a b c d)).countOf Zone.secondary = 2 * d ∧
    (scanRows (rowsBlocks a b c d)).idxOf Zone.core = (if a = 0 then -1 else 0) ∧
    (scanRows (rowsBlocks a b c d)).idxOf Zone.inactive = (if b = 0 then -1 else (a : ℤ)) ∧
    (scanRows (rowsBlocks a b c d)).idxOf Zone.active =
      (if c = 0 then -1 else ((a + b : ℕ) : ℤ)) ∧
    (scanRows (rowsBlocks a b c d)).idxOf Zone.secondary =
      (if d = 0 then -1 else ((a + b + c : ℕ) : ℤ)) := by
  have hsplit : scanRows (rowsBlocks a b c d) =
      scanFrom (scanFrom (scanFrom (scanFrom initState 0
        (List.replicate a (zoneColor Zone.core))) a
        (List.replicate b (zoneColor Zone.inactive))) (a + b)
        (List.replicate c (zoneColor Zone.active))) (a + b + c)
        (List.replicate d (zoneColor Zone.secondary)) := by
    simp only [scanRows, rowsBlocks]
    rw [scanFrom_append, scanFrom_append, scanFrom_append]
    simp [List.length_replicate]
  refine ⟨?_, ?_, ?_, ?_, ?_, ?_, ?_, ?_⟩ <;> rw [hsplit] <;>
    simp only [scanFrom_replicate_countOf, scanFrom_replicate_idxOf]
  · simp [initState, ScanState.countOf]
  · simp [initState, ScanState.countOf]
  · simp [initState, ScanState.countOf]
  · simp [initState, ScanState.countOf]
  · rcases Nat.eq_zero_or_pos a with ha | ha
    · simp [initState, ScanState.idxOf, ha]
    · have ha' : a ≠ 0 := by omega
      simp [initState, ScanState.idxOf, ha, ha']
  · rcases Nat.eq_zero_or_pos b with hb | hb
    · simp [initState, ScanState.idxOf, hb]
    · have hb' : b ≠ 0 := by omega
      simp [initState, ScanState.idxOf, hb, hb']
  · rcases Nat.eq_zero_or_pos c with hc | hc
    · simp [initState, ScanState.idxOf, hc]
    · have hc' : c ≠ 0 := by omega
      simp [initState, ScanState.idxOf, hc, hc']
  · rcases Nat.eq_zero_or_pos d with hd | hd
    · simp [initState, ScanState.idxOf, hd]
    · have hd' : d ≠ 0 := by omega
      simp [initState, ScanState.idxOf, hd, hd']

theorem resolveDefaults_rowsBlocks (a b c d : ℕ) :
    (resolveDefaults (scanRows (rowsBlocks a b c d))).idxInactive = (a : ℤ) ∧
    (resolveDefaults (scanRows (rowsBlocks a b c d))).idxActive = ((a + b : ℕ) : ℤ) ∧
    (resolveDefaults (scanRows (rowsBlocks a b c d))).idxSecondary =
      ((a + b + c : ℕ) : ℤ) := by
  obtain ⟨h1, h2, h3, h4, h5, h6, h7, h8⟩ := scanRows_rowsBlocks a b c d
  refine ⟨?_, ?_, ?_⟩
  · simp only [resolveDefaults]
    rw [countCore_eq, idxInactive_eq, h1, h6]
    split_ifs <;> omega
  · simp only [resolveDefaults]
    rw [countCore_eq, countInactive_eq, idxActive_eq, h1, h2, h7]
    split_ifs <;> omega
  · simp only [resolveDefaults]
    rw [countCore_eq, countInactive_eq, countActive_eq, idxSecondary_eq, h1, h2, h3, h8]
    split_ifs <;> omega

/-! ### Facts about the recolor operations -/

theorem change_background_cons (t : Table) (x : ℕ) (xs : List ℕ) (color : Color) :
    change_background_color t (x :: xs) color =
      change_background_color (change_selected_rows_background_color t x color) xs color :=
  rfl

theorem change_one_ncols (t : Table) (row : ℕ) (color : Color) :
    (change_selected_rows_background_color t row color).ncols = t.ncols :=
  rfl

theorem change_background_ncols :
    ∀ (rows : List ℕ) (t : Table) (color : Color),
      (change_background_color t rows color).ncols = t.ncols
  | [], t, color => rfl
  | x :: xs, t, color => by
      rw [change_background_cons, change_background_ncols xs _ color, change_one_ncols]

theorem change_background_cell :
    ∀ (rows : List ℕ) (t : Table) (color : Color) (r c : ℕ),
      (change_background_color t rows color).cell r c =
        if r ∈ rows ∧ c < t.ncols then color else t.cell r c
  | [], t, color, r, c => by simp [change_background_color]
  | x :: xs, t, color, r, c => by
      rw [change_background_cons, change_background_cell xs _ color r c]
      simp only [change_selected_rows_background_color]
      by_cases hc : c < t.ncols <;> by_cases hx : r = x <;> by_cases hxs : r ∈ xs <;>
        simp [hc, hx, hxs]

/-! ### Further bridges used by the claim theorems -/

theorem resolveDefaults_countOf (st : ScanState) (z : Zone) :
    (resolveDefaults st).countOf z = st.countOf z := by
  cases z <;> rfl

theorem onTableWidgetColorChanged_countOf (rows : List Color) (z : Zone) :
    (onTableWidgetColorChanged rows).countOf z = (scanRows rows).countOf z := by
  cases z <;> rfl

theorem get_append_cons {α : Type} :
    ∀ (l1 : List α) (x : α) (l2 : List α), (l1 ++ x :: l2).get? l1.length = some x
  | [], x, l2 => rfl
  | y :: ys, x, l2 => by simpa using get_append_cons ys x l2

/-! ### Claim theorems -/

/-- C1: for a coloring in which each row has one of the four zone colors,
one scan pass gives every zone an internal count of exactly twice the
number of rows with that zone's color, and a first-seen index equal to the
smallest row index with that color, the sentinel `-1` when no row has it. -/
theorem c1_scan_counts_and_firstSeen (rows : List Color)
    (hrec : ∀ c ∈ rows, c ≠ Color.other) (z : Zone) :
    (scanRows rows).countOf z = 2 * rows.count (zoneColor z) ∧
    (((scanRows rows).idxOf z = -1 ∧ zoneColor z ∉ rows) ∨
      (∃ j : ℕ, (scanRows rows).idxOf z = (j : ℤ) ∧
        rows.get? j = some (zoneColor z) ∧
        ∀ k, k < j → rows.get? k ≠ some (zoneColor z))) := by
  constructor
  · rw [scanRows, scanFrom_countOf]
    cases z <;> simp [initState, ScanState.countOf]
  · have h := scanFrom_idxOf_spec z rows 0 initState (by cases z <;> rfl)
    rw [scanRows]
    simpa using h

theorem c1_scan_counts_and_firstSeen_witness :
    (∀ c ∈ [Color.inactive, Color.core, Color.core], c ≠ Color.other) ∧
    ((scanRows [Color.inactive, Color.core, Color.core]).countOf Zone.core =
        2 * [Color.inactive, Color.core, Color.core].count (zoneColor Zone.core) ∧
      (((scanRows [Color.inactive, Color.core, Color.core]).idxOf Zone.core = -1 ∧
          zoneColor Zone.core ∉ [Color.inactive, Color.core, Color.core]) ∨
        (∃ j : ℕ,
          (scanRows [Color.inactive, Color.core, Color.core]).idxOf Zone.core = (j : ℤ) ∧
          [Color.inactive, Color.core, Color.core].get? j = some (zoneColor Zone.core) ∧
          ∀ k, k < j →
            [Color.inactive, Color.core, Color.core].get? k ≠
              some (zoneColor Zone.core)))) :=
  ⟨by decide,
    c1_scan_counts_and_firstSeen [Color.inactive, Color.core, Color.core] (by decide)
      Zone.core⟩

/-- C5 counterexample: on a one-row table colored core, the number emitted
for presentation is the internal doubled count `2`, not the row count `1` —
the source passes `color_count` to the labels without halving. -/
theorem c5_displayed_count_counterexample :
    (onTableWidgetColorChanged [Color.core]).countOf Zone.core ≠
      ([Color.core] : List Color).count (zoneColor Zone.core) ∧
    (onTableWidgetColorChanged [Color.core]).countOf Zone.core = 2 ∧
    ([Color.core] : List Color).count (zoneColor Zone.core) = 1 := by
  decide

/-- C5 (amended): the four per-zone counts emitted for presentation are the
internal doubled counts unchanged — each displayed count equals twice the
number of rows assigned to that zone. -/
theorem c5_displayed_counts_doubled (rows : List Color) (z : Zone) :
    (onTableWidgetColorChanged rows).countOf z = 2 * rows.count (zoneColor z) := by
  rw [onTableWidgetColorChanged_countOf, scanRows, scanFrom_countOf]
  cases z <;> simp [initState, ScanState.countOf]

/-- C6 counterexample: on a coloring with an unrecognized color, the
reconcile pass completes normally — it returns an ordinary result in which
the unrecognized row is counted in no zone (the count total is 2, not
2·rowCount), rather than signaling an invalid-input condition. -/
theorem c6_unrecognized_color_counterexample :
    onTableWidgetColorChanged [Color.other, Color.core] =
      { info := { core := (0, 0), inactive := (1, 0), active := (1, 0),
                  secondary := (1, 1) },
        countCore := 2, countInactive := 0, countActive := 0, countSecondary := 0 } ∧
    (onTableWidgetColorChanged [Color.other, Color.core]).countCore +
        (onTableWidgetColorChanged [Color.other, Color.core]).countInactive +
        (onTableWidgetColorChanged [Color.other, Color.core]).countActive +
        (onTableWidgetColorChanged [Color.other, Color.core]).countSecondary ≠
      2 * ([Color.other, Color.core] : List Color).length := by
  decide

/-- C6 (amended): a row with an unrecognized color is silently skipped by
the scan: every zone's count is what it would be with that row deleted, and
no zone's first-seen index ever points at the unrecognized row — no default
zone is substituted. -/
theorem c6_unrecognized_silently_skipped (pre post : List Color) (z : Zone) :
    (scanRows (pre ++ Color.other :: post)).countOf z =
      (scanRows (pre ++ post)).countOf z ∧
    (scanRows (pre ++ Color.other :: post)).idxOf z ≠ (pre.length : ℤ) := by
  constructor
  · rw [scanRows, scanRows, scanFrom_countOf, scanFrom_countOf]
    cases z <;> simp [List.count_append, List.count_cons, zoneColor]
  · have hspec := scanFrom_idxOf_spec z (pre ++ Color.other :: post) 0 initState
      (by cases z <;> rfl)
    rw [scanRows]
    rcases hspec with ⟨h1, h2⟩ | ⟨j, h1, h2, h3⟩
    · rw [h1]
      omega
    · rw [h1]
      intro hcontra
      have hj : j = pre.length := by omega
      subst hj
      rw [get_append_cons] at h2
      cases z <;> simp [zoneColor] at h2

/-- C10: on an empty table a reconcile pass terminates with all four
emitted counts 0 and all four stored boundaries equal to the degenerate
pair `(0, -1)`. -/
theorem c10_empty_table :
    onTableWidgetColorChanged ([] : List Color) =
      { info := { core := (0, -1), inactive := (0, -1), active := (0, -1),
                  secondary := (0, -1) },
        countCore := 0, countInactive := 0, countActive := 0,
        countSecondary := 0 } := by
  decide

/-- C2 counterexample: on the two-row coloring `[active, inactive]` — every
row one of the four zone colors — the resolved split points are not totally
ordered: inactive's first-seen is 1 while active's is 0. -/
theorem c2_split_points_counterexample :
    (∀ c ∈ [Color.active, Color.inactive], c ≠ Color.other) ∧
    (resolveDefaults (scanRows [Color.active, Color.inactive])).idxInactive = 1 ∧
    (resolveDefaults (scanRows [Color.active, Color.inactive])).idxActive = 0 ∧
    ¬((resolveDefaults (scanRows [Color.active, Color.inactive])).idxInactive ≤
        (resolveDefaults (scanRows [Color.active, Color.inactive])).idxActive ∧
      (resolveDefaults (scanRows [Color.active, Color.inactive])).idxActive ≤
        (resolveDefaults (scanRows [Color.active, Color.inactive])).idxSecondary) := by
  decide

/-- C2 (amended): for every zone-monotone coloring (each zone's rows form
one contiguous block, blocks in display order — in particular whenever some
zones are empty and the rest are contiguous), the three resolved split
points passed to `setIndices` are totally ordered:
inactive first-seen ≤ active first-seen ≤ secondary first-seen. -/
theorem c2_split_points_ordered_of_monotone (l : List Zone) (h : ZoneMonotone l) :
    (resolveDefaults (scanRows (l.map zoneColor))).idxInactive ≤
      (resolveDefaults (scanRows (l.map zoneColor))).idxActive ∧
    (resolveDefaults (scanRows (l.map zoneColor))).idxActive ≤
      (resolveDefaults (scanRows (l.map zoneColor))).idxSecondary := by
  have hrepl := zoneMonotone_eq_replicates l h
  have hmap : l.map zoneColor = rowsBlocks (l.count Zone.core) (l.count Zone.inactive)
      (l.count Zone.active) (l.count Zone.secondary) := by
    conv_lhs => rw [hrepl]
    simp [rowsBlocks, List.map_append, List.map_replicate]
  rw [hmap]
  obtain ⟨h1, h2, h3⟩ := resolveDefaults_rowsBlocks (l.count Zone.core)
    (l.count Zone.inactive) (l.count Zone.active) (l.count Zone.secondary)
  rw [h1, h2, h3]
  constructor <;> push_cast <;> omega

theorem c2_split_points_ordered_of_monotone_witness :
    ZoneMonotone [Zone.core, Zone.inactive, Zone.active, Zone.secondary] ∧
    ((resolveDefaults (scanRows
        ([Zone.core, Zone.inactive, Zone.active, Zone.secondary].map zoneColor))).idxInactive ≤
      (resolveDefaults (scanRows
        ([Zone.core, Zone.inactive, Zone.active, Zone.secondary].map zoneColor))).idxActive ∧
     (resolveDefaults (scanRows
        ([Zone.core, Zone.inactive, Zone.active, Zone.secondary].map zoneColor))).idxActive ≤
      (resolveDefaults (scanRows
        ([Zone.core, Zone.inactive, Zone.active, Zone.secondary].map zoneColor))).idxSecondary) :=
  ⟨by decide,
    c2_split_points_ordered_of_monotone
      [Zone.core, Zone.inactive, Zone.active, Zone.secondary] (by decide)⟩

/-- C3: for `0 ≤ a ≤ b ≤ c ≤ n`, `setIndices a b c n` stores contiguous
boundaries — `core.first = 0`, each zone's last + 1 equals the next zone's
first, `secondary.last = n - 1` — and a zone is allotted no rows exactly
when its pair is degenerate (`first > last`). -/
theorem c3_setIndices_contiguity (a b c n : ℤ)
    (h0 : 0 ≤ a) (h1 : a ≤ b) (h2 : b ≤ c) (h3 : c ≤ n) :
    (setIndices a b c n).core.1 = 0 ∧
    (setIndices a b c n).core.2 + 1 = (setIndices a b c n).inactive.1 ∧
    (setIndices a b c n).inactive.2 + 1 = (setIndices a b c n).active.1 ∧
    (setIndices a b c n).active.2 + 1 = (setIndices a b c n).secondary.1 ∧
    (setIndices a b c n).secondary.2 = n - 1 ∧
    ((setIndices a b c n).core.1 > (setIndices a b c n).core.2 ↔ a = 0) ∧
    ((setIndices a b c n).inactive.1 > (setIndices a b c n).inactive.2 ↔ a = b) ∧
    ((setIndices a b c n).active.1 > (setIndices a b c n).active.2 ↔ b = c) ∧
    ((setIndices a b c n).secondary.1 > (setIndices a b c n).secondary.2 ↔ c = n) := by
  refine ⟨?_, ?_, ?_, ?_, ?_, ?_, ?_, ?_, ?_⟩ <;> simp [setIndices] <;> omega

theorem c3_setIndices_contiguity_witness :
    ((0 : ℤ) ≤ 1 ∧ (1 : ℤ) ≤ 2 ∧ (2 : ℤ) ≤ 3 ∧ (3 : ℤ) ≤ 4) ∧
    ((setIndices 1 2 3 4).core.1 = 0 ∧
     (setIndices 1 2 3 4).core.2 + 1 = (setIndices 1 2 3 4).inactive.1 ∧
     (setIndices 1 2 3 4).inactive.2 + 1 = (setIndices 1 2 3 4).active.1 ∧
     (setIndices 1 2 3 4).active.2 + 1 = (setIndices 1 2 3 4).secondary.1 ∧
     (setIndices 1 2 3 4).secondary.2 = 4 - 1 ∧
     ((setIndices 1 2 3 4).core.1 > (setIndices 1 2 3 4).core.2 ↔ (1 : ℤ) = 0) ∧
     ((setIndices 1 2 3 4).inactive.1 > (setIndices 1 2 3 4).inactive.2 ↔ (1 : ℤ) = 2) ∧
     ((setIndices 1 2 3 4).active.1 > (setIndices 1 2 3 4).active.2 ↔ (2 : ℤ) = 3) ∧
     ((setIndices 1 2 3 4).secondary.1 > (setIndices 1 2 3 4).secondary.2 ↔ (3 : ℤ) = 4)) :=
  ⟨by decide,
    c3_setIndices_contiguity 1 2 3 4 (by decide) (by decide) (by decide) (by decide)⟩

/-- C4: for every selection and every stored boundary table, the context
menu offers, in the fixed order core, inactive, active, secondary, exactly
the zones whose trigger rule holds: core iff `inactive.first` is selected;
inactive iff `core.last` or `active.first` is; active iff `inactive.last`
or `secondary.first` is; secondary iff `active.last` is. -/
theorem c4_adviseActions_is_trigger_filter (selected_rows : Finset ℤ) (info : IndexInfo) :
    show_context_menu selected_rows info =
      [Zone.core, Zone.inactive, Zone.active, Zone.secondary].filter
        (adviseTrigger selected_rows info) := by
  simp only [show_context_menu, adviseTrigger, List.filter_cons, List.filter_nil,
    Bool.or_eq_true, decide_eq_true_eq]
  split_ifs <;> simp_all

/-- C7 (code-bug evaluation): `load_output` passes the column count, not the
row count, as the `length` argument of `setIndices`; on a 40-row, 7-column
table the stored boundaries are `(0,9),(10,19),(20,29),(30,6)` — not the
`(0,9),(10,19),(20,29),(30,39)` the claim states. -/
theorem c7_load_output_boundary_bug :
    load_output_setIndices 40 7 =
      { core := (0, 9), inactive := (10, 19), active := (20, 29),
        secondary := (30, 6) } ∧
    load_output_setIndices 40 7 ≠ setIndices 10 20 30 40 ∧
    load_output_rowColor 9 = Color.core ∧ load_output_rowColor 10 = Color.inactive ∧
    load_output_rowColor 19 = Color.inactive ∧ load_output_rowColor 20 = Color.active ∧
    load_output_rowColor 29 = Color.active ∧ load_output_rowColor 30 = Color.secondary ∧
    load_output_rowColor 39 = Color.secondary := by
  decide

/-- C8 counterexample: with stored boundaries `setIndices 10 10 20 30`
(empty inactive zone) — where `core.last = 9` differs from
`active.first = 10` — the selection `{core.last}` is offered both inactive
and active, not exactly inactive. -/
theorem c8_coreLast_selection_counterexample :
    (setIndices 10 10 20 30).core.2 ≠ (setIndices 10 10 20 30).active.1 ∧
    show_context_menu ({9} : Finset ℤ) (setIndices 10 10 20 30) ≠ [Zone.inactive] ∧
    show_context_menu ({9} : Finset ℤ) (setIndices 10 10 20 30) =
      [Zone.inactive, Zone.active] := by
  decide

/-- C8 (amended): for boundaries stored from ordered split points
`0 ≤ a ≤ b ≤ c ≤ n` with a non-empty inactive zone (`a ≠ b`, i.e.
`core.last ≠ inactive.last`), the selection `{core.last}` is offered
exactly the single action inactive. -/
theorem c8_coreLast_selection_inactive_only (a b c n : ℤ)
    (h0 : 0 ≤ a) (h1 : a ≤ b) (h2 : b ≤ c) (h3 : c ≤ n) (hne : a ≠ b) :
    show_context_menu ({a - 1} : Finset ℤ) (setIndices a b c n) = [Zone.inactive] := by
  have e1 : ¬(a = a - 1) := by omega
  have e2 : (a - 1 = a - 1 ∨ b = a - 1) := Or.inl rfl
  have e3 : ¬(b - 1 = a - 1 ∨ c = a - 1) := by omega
  have e4 : ¬(c - 1 = a - 1) := by omega
  simp [show_context_menu, setIndices, Finset.mem_singleton, e1, e2, e3, e4]
  omega

theorem c8_coreLast_selection_inactive_only_witness :
    ((0 : ℤ) ≤ 10 ∧ (10 : ℤ) ≤ 20 ∧ (20 : ℤ) ≤ 30 ∧ (30 : ℤ) ≤ 40 ∧ (10 : ℤ) ≠ 20) ∧
    show_context_menu ({(10 : ℤ) - 1} : Finset ℤ) (setIndices 10 20 30 40) =
      [Zone.inactive] :=
  ⟨by decide,
    c8_coreLast_selection_inactive_only 10 20 30 40 (by decide) (by decide) (by decide)
      (by decide) (by decide)⟩

/-- C9: recoloring a selection paints the same color on every column of
each selected row; hence the row-uniformity invariant (all cells of one row
share a single color) is preserved by every recolor operation, and reading
column 0 determines any row's color at every column. -/
theorem c9_recolor_preserves_row_uniformity (t : Table) (rows : List ℕ) (color : Color)
    (h : UniformRows t) :
    (∀ r, r ∈ rows → ∀ c, c < (change_background_color t rows color).ncols →
        (change_background_color t rows color).cell r c = color) ∧
    UniformRows (change_background_color t rows color) ∧
    (∀ r c, c < (change_background_color t rows color).ncols →
        (change_background_color t rows color).cell r c =
          (change_background_color t rows color).cell r 0) := by
  have hn := change_background_ncols rows t color
  refine ⟨?_, ?_, ?_⟩
  · intro r hr c hc
    rw [hn] at hc
    rw [change_background_cell]
    simp [hr, hc]
  · intro r c₁ c₂ hc1 hc2
    rw [hn] at hc1 hc2
    rw [change_background_cell, change_background_cell]
    by_cases hr : r ∈ rows
    · simp [hr, hc1, hc2]
    · simp [hr]
      exact h r c₁ c₂ hc1 hc2
  · intro r c hc
    rw [hn] at hc
    have h0 : 0 < t.ncols := by omega
    rw [change_background_cell, change_background_cell]
    by_cases hr : r ∈ rows
    · simp [hr, hc, h0]
    · simp [hr]
      exact h r c 0 hc h0

theorem c9_recolor_preserves_row_uniformity_witness :
    UniformRows { nrows := 2, ncols := 2, cell := fun _ _ => Color.core } ∧
    ((∀ r, r ∈ [0] → ∀ c,
        c < (change_background_color
          { nrows := 2, ncols := 2, cell := fun _ _ => Color.core }
          [0] Color.inactive).ncols →
        (change_background_color
          { nrows := 2, ncols := 2, cell := fun _ _ => Color.core }
          [0] Color.inactive).cell r c = Color.inactive) ∧
      UniformRows (change_background_color
        { nrows := 2, ncols := 2, cell := fun _ _ => Color.core } [0] Color.inactive) ∧
      (∀ r c,
        c < (change_background_color
          { nrows := 2, ncols := 2, cell := fun _ _ => Color.core }
          [0] Color.inactive).ncols →
        (change_background_color
          { nrows := 2, ncols := 2, cell := fun _ _ => Color.core }
          [0] Color.inactive).cell r c =
          (change_background_color
            { nrows := 2, ncols := 2, cell := fun _ _ => Color.core }
            [0] Color.inactive).cell r 0)) :=
  ⟨fun r c₁ c₂ h₁ h₂ => rfl,
    c9_recolor_preserves_row_uniformity
      { nrows := 2, ncols := 2, cell := fun _ _ => Color.core } [0] Color.inactive
      (fun r c₁ c₂ h₁ h₂ => rfl)⟩
